import Mathlib

/-!
Verification of the InfoGenius service layer.

This file gives a shallow embedding, in Lean, of the orchestration core of the
repository (the file services/geminiService.ts and the restoreImage operation
of the main application component), and proves or refutes the frozen claims
about it.

Modelling conventions:
- TypeScript strings are modelled as Lean String where only whole-string
  operations occur, and as List Char where character-level scanning occurs
  (parsing, substring search).
- The case-insensitive regex flag is modelled as ASCII case folding via
  Char.toLower, and the regex whitespace class together with String.trim is
  modelled by the predicate isSpaceJS below covering the common whitespace
  code points.
- A provider operation is modelled as a pure function from the credential it
  is invoked with to an Except value: Except.ok is a fulfilled promise,
  Except.error carries the message of the thrown error.
-/

/-! ## Definitions: the shallow embedding of the service layer -/

/-- Position of the first suffix of the list satisfying the predicate, if any.
Used to model leftmost regex matching and substring search. -/
def findPrefixPos (p : List Char → Bool) : List Char → Option Nat
  | [] => if p [] then some 0 else none
  | c :: rest => if p (c :: rest) then some 0 else (findPrefixPos p rest).map (· + 1)

/-- Model of the JavaScript expression s.includes(pat): pat occurs as a
contiguous substring of s. -/
def includesSub (s pat : String) : Bool :=
  (findPrefixPos (fun suf => pat.data.isPrefixOf suf) s.data).isSome

/-- Model of the isRetryable test inside executeWithRetry
(services/geminiService.ts lines 37-44): the thrown error message is checked
for each of the six substrings with String.includes. -/
def isRetryable (msg : String) : Bool :=
  includesSub msg "429" ||
  includesSub msg "403" ||
  includesSub msg "quota" ||
  includesSub msg "key" ||
  includesSub msg "PERMISSION_DENIED" ||
  includesSub msg "RESOURCE_EXHAUSTED"

/-- The for-loop of executeWithRetry (services/geminiService.ts lines 27-56)
over the remaining keys, carrying the lastError variable.  Besides the result
it returns the trace of keys the operation was actually invoked with, in
invocation order.  When the keys run out it throws lastError, or the generic
message when no error was recorded, exactly as line 56 of the source. -/
def rotateLoop (op : String → Except String α) :
    List String → Option String → Except String α × List String
  | [], lastError => (Except.error (lastError.getD "All API keys failed."), [])
  | k :: ks, lastError =>
    match op k with
    | Except.ok v => (Except.ok v, [k])
    | Except.error e =>
      if isRetryable e then
        let r := rotateLoop op ks (some e)
        (r.1, k :: r.2)
      else (Except.error e, [k])

/-- Model of executeWithRetry (services/geminiService.ts lines 21-57).  The
operation receives some key when invoked with a stored credential and none when
invoked with the implicit environment credential (createAi with no argument,
used when the store is empty). -/
def executeWithRetry (op : Option String → Except String α) (customKeys : List String) :
    Except String α :=
  if customKeys.length = 0 then op none
  else (rotateLoop (fun k => op (some k)) customKeys none).1

/-- The trace of credentials the executor invokes the operation with, for a
non-empty store: the second component of the loop. -/
def attemptTrace (op : Option String → Except String α) (customKeys : List String) :
    List String :=
  (rotateLoop (fun k => op (some k)) customKeys none).2

/-- An operation fails retryably on a key when it throws an error whose
message the executor classifies as retryable. -/
def failsRetryably (op : Option String → Except String α) (k : String) : Prop :=
  ∃ e, op (some k) = Except.error e ∧ isRetryable e = true

/-- Concrete run of C1: with keys a, b, c, where a fails with a 429 message
and b succeeds, the executor returns the success of b and attempts exactly
a then b. -/
def cOneOp : Option String → Except String Nat
  | some "a" => Except.error "429 Too Many Requests"
  | some "b" => Except.ok 7
  | some "x" => Except.error "quota exceeded"
  | _ => Except.error "bad request"

/-- The exact signal list named by the claim: HTTP-like status 429, HTTP-like
status 403, and substrings indicating quota, permission denial, or resource
exhaustion.  This definition follows the claim wording, for comparison with
the isRetryable definition taken from the source. -/
def claimTransientSignals (msg : String) : Bool :=
  includesSub msg "429" ||
  includesSub msg "403" ||
  includesSub msg "quota" ||
  includesSub msg "PERMISSION_DENIED" ||
  includesSub msg "RESOURCE_EXHAUSTED"

/-- ASCII case folding, modelling the case-insensitive regex flag. -/
def lcase (l : List Char) : List Char := l.map Char.toLower

/-- The JavaScript whitespace class (regex backslash-s and String.trim),
restricted to the common code points. -/
def isSpaceJS (c : Char) : Bool :=
  c = ' ' || c = '\t' || c = '\n' || c = '\r' || c.val = 11 || c.val = 12 ||
  c.val = 160 || c.val = 65279

/-- The suffix s starts with pat, compared case-insensitively (pat is given
in lower case). -/
def startsWithCI (pat s : List Char) : Bool := pat.isPrefixOf (lcase s)

def hdrFacts : List Char := "facts:".data

def hdrArticle : List Char := "article:".data

def hdrImagePrompt : List Char := "image_prompt:".data

/-- Position at which the lazy group of the facts regex stops: the first
position of body at which the lookahead ARTICLE: or IMAGE_PROMPT: succeeds,
or the end of the text (the dollar alternative). -/
def factsStop (body : List Char) : Nat :=
  (findPrefixPos (fun s => startsWithCI hdrArticle s || startsWithCI hdrImagePrompt s)
    body).getD body.length

/-- The capture group of text.match(/FACTS:\s*([\s\S]*?)(?=ARTICLE:|IMAGE_PROMPT:|$)/i)
(services/geminiService.ts line 144): none when no case-insensitive FACTS:
occurs; otherwise the text from the first FACTS: with leading whitespace
skipped, up to the first later section header or the end of the text. -/
def sectionAfterFacts? (text : List Char) : Option (List Char) :=
  match findPrefixPos (startsWithCI hdrFacts) text with
  | none => none
  | some i =>
    some ((((text.drop i).drop hdrFacts.length).dropWhile isSpaceJS).take
      (factsStop (((text.drop i).drop hdrFacts.length).dropWhile isSpaceJS)))

/-- JavaScript String.trim on character lists. -/
def trimJS (l : List Char) : List Char :=
  ((l.dropWhile isSpaceJS).reverse.dropWhile isSpaceJS).reverse

/-- One line's f.replace(/^-\s*/, ''): drop a leading dash and the whitespace
following it, otherwise leave the line unchanged. -/
def stripListMarker (l : List Char) : List Char :=
  match l with
  | [] => []
  | c :: rest => if c = '-' then rest.dropWhile isSpaceJS else c :: rest

/-- The facts pipeline of researchTopicForPrompt (services/geminiService.ts
lines 144-148): trimmed facts section, split on newline, each line stripped
of its list marker and trimmed, blank lines dropped, capped at 5 entries. -/
def parseFacts (text : List Char) : List (List Char) :=
  ((((trimJS ((sectionAfterFacts? text).getD [])).splitOn '\n').map
      (fun f => trimJS (stripListMarker f))).filter
    (fun f => decide (0 < f.length))).take 5

/-- The capture group of text.match(/IMAGE_PROMPT:\s*([\s\S]*?)$/i) followed
by trim (services/geminiService.ts lines 155-156): none when no
case-insensitive IMAGE_PROMPT: occurs; otherwise the trimmed text after the
first IMAGE_PROMPT: to the end of the text. -/
def sectionAfterImagePrompt? (text : List Char) : Option (List Char) :=
  match findPrefixPos (startsWithCI hdrImagePrompt) text with
  | none => none
  | some i =>
    some (trimJS (((text.drop i).drop hdrImagePrompt.length).dropWhile isSpaceJS))

/-- The synthesized fallback prompt of services/geminiService.ts line 156. -/
def fallbackPrompt (topic levelInstr styleInstr : List Char) : List Char :=
  "Create a detailed infographic about ".data ++ topic ++ ". ".data
    ++ levelInstr ++ " ".data ++ styleInstr

/-- The imagePrompt field of the research result. -/
def parseImagePrompt (text topic levelInstr styleInstr : List Char) : List Char :=
  (sectionAfterImagePrompt? text).getD (fallbackPrompt topic levelInstr styleInstr)

/-- A {title, url} entry of searchResults. -/
structure SearchResultItem where
  title : List Char
  url : List Char
deriving DecidableEq

/-- A web reference of the grounding metadata. -/
structure WebRef where
  uri : List Char
  title : List Char
deriving DecidableEq

/-- A grounding chunk, whose web field may be absent. -/
structure GroundingChunk where
  web : Option WebRef
deriving DecidableEq

/-- The forEach push of services/geminiService.ts lines 163-171: a chunk
contributes an entry exactly when its web reference is present and both uri
and title are truthy (non-empty). -/
def chunkItem? (c : GroundingChunk) : Option SearchResultItem :=
  match c.web with
  | some w =>
    if 0 < w.uri.length ∧ 0 < w.title.length then some ⟨w.title, w.uri⟩ else none
  | none => none

def collectSearchResults (chunks : List GroundingChunk) : List SearchResultItem :=
  chunks.filterMap chunkItem?

/-- One Map.set step of new Map(searchResults.map(item => [item.url, item])):
setting an existing key overwrites its value in place, a new key is appended
at the end. -/
def mapSet (m : List SearchResultItem) (item : SearchResultItem) : List SearchResultItem :=
  if ∃ x ∈ m, x.url = item.url then
    m.map (fun x => if x.url = item.url then item else x)
  else m ++ [item]

/-- Array.from(new Map(searchResults.map(item => [item.url, item])).values())
(services/geminiService.ts line 174): the JavaScript Map keeps first-insertion
key order and overwrites values on repeated keys. -/
def uniqueResults (l : List SearchResultItem) : List SearchResultItem :=
  l.foldl mapSet []

/-- Deduplication by url as the claim words it: one entry per url, placed at
the position of the first occurrence of that url and carrying the last
occurrence with that url.  This definition follows the claim text, for
comparison with uniqueResults. -/
def dedupByUrlSpec : List SearchResultItem → List SearchResultItem
  | [] => []
  | x :: rest =>
    (rest.filter (fun y => decide (y.url = x.url))).getLastD x ::
      dedupByUrlSpec (rest.filter (fun y => decide (¬ y.url = x.url)))
termination_by l => l.length
decreasing_by
  simp only [List.length_cons]
  exact Nat.lt_succ_of_le (List.length_filter_le _ _)

/-- No two entries of the list share a url. -/
def distinctUrls (l : List SearchResultItem) : Prop :=
  l.Pairwise (fun a b => a.url ≠ b.url)

/-- Membership test used by mapSet, as a Bool on which filters can run. -/
def urlNotIn (m : List SearchResultItem) (y : SearchResultItem) : Bool :=
  decide (∀ x ∈ m, ¬ x.url = y.url)

/-- Concrete grounding metadata with two references sharing the url u1. -/
def cSevenChunks : List GroundingChunk :=
  [⟨some ⟨"u1".data, "t1".data⟩⟩, ⟨some ⟨"u2".data, "t2".data⟩⟩,
   ⟨some ⟨"u1".data, "t3".data⟩⟩]

def dataUriHeadPng : List Char := "data:image/png;base64,".data

def dataUriHeadJpeg : List Char := "data:image/jpeg;base64,".data

def dataUriHeadJpg : List Char := "data:image/jpg;base64,".data

/-- currentImageBase64.replace(/^data:image\/(png|jpeg|jpg);base64,/, '')
(services/geminiService.ts line 243): strip one of the three recognized heads
when present, otherwise leave the string unchanged. -/
def cleanBase64 (s : List Char) : List Char :=
  if dataUriHeadPng.isPrefixOf s then s.drop dataUriHeadPng.length
  else if dataUriHeadJpeg.isPrefixOf s then s.drop dataUriHeadJpeg.length
  else if dataUriHeadJpg.isPrefixOf s then s.drop dataUriHeadJpg.length
  else s

/-- The character class [a-zA-Z+] of the mime detection regex. -/
def isMimeChar (c : Char) : Bool :=
  ('a' ≤ c && c ≤ 'z') || ('A' ≤ c && c ≤ 'Z') || c = '+'

/-- Success of currentImageBase64.match(/^data:(image\/[a-zA-Z+]+);base64,/)
(services/geminiService.ts line 247): the anchored head, a non-empty maximal
run of mime characters, then the base64 marker.  The greedy run never needs
backtracking because a semicolon is not a mime character. -/
def dataUriMatches (s : List Char) : Bool :=
  "data:image/".data.isPrefixOf s &&
  decide (0 < ((s.drop "data:image/".data.length).takeWhile isMimeChar).length) &&
  ";base64,".data.isPrefixOf
    ((s.drop "data:image/".data.length).drop
      ((s.drop "data:image/".data.length).takeWhile isMimeChar).length)

/-- Mime detection of editInfographicImage (services/geminiService.ts lines
246-250): image/<type> when the anchored pattern matches, image/png
otherwise. -/
def detectMimeType (s : List Char) : List Char :=
  if dataUriMatches s then
    "image/".data ++ (s.drop "data:image/".data.length).takeWhile isMimeChar
  else "image/png".data

/-- The request content assembled by editInfographicImage
(services/geminiService.ts lines 252-268): the inline image data (the cleaned
base64 string), the detected mime type, and the edit instruction text part. -/
structure EditRequest where
  data : List Char
  mimeType : List Char
  instruction : List Char
deriving DecidableEq

def editInfographicImage (currentImageBase64 editPrompt : List Char) : EditRequest :=
  ⟨cleanBase64 currentImageBase64, detectMimeType currentImageBase64, editPrompt⟩

structure InlineData where
  data : List Char
deriving DecidableEq

structure RespPart where
  inlineData : Option InlineData
  text : Option (List Char)
deriving DecidableEq

structure RespContent where
  parts : Option (List RespPart)
deriving DecidableEq

structure Candidate where
  content : Option RespContent
deriving DecidableEq

structure GenResponse where
  candidates : Option (List Candidate)
deriving DecidableEq

/-- The optional chain response.candidates?.[0]?.content?.parts. -/
def respParts? (r : GenResponse) : Option (List RespPart) :=
  (r.candidates.bind List.head?).bind (fun c => c.content.bind (fun ct => ct.parts))

/-- The truthiness test part.inlineData && part.inlineData.data: inline data
present with a non-empty payload. -/
def partImageData? (p : RespPart) : Option (List Char) :=
  match p.inlineData with
  | some d => if 0 < d.data.length then some d.data else none
  | none => none

/-- The scan of generateInfographicImage over the response parts
(services/geminiService.ts lines 195-205): the first part carrying inline
image data is wrapped as a png data URI; otherwise the explicit failure
Failed to generate image is thrown, distinct from any provider failure. -/
def generateInfographicImage (r : GenResponse) : Except (List Char) (List Char) :=
  match respParts? r with
  | some ps =>
    match ps.findSome? partImageData? with
    | some d => Except.ok ("data:image/png;base64,".data ++ d)
    | none => Except.error "Failed to generate image".data
  | none => Except.error "Failed to generate image".data

/-- The specified concrete scenario: a first text-only part, then a part
carrying inline image bytes. -/
def cNineResponse : GenResponse :=
  ⟨some [⟨some ⟨some [⟨none, some "hello".data⟩, ⟨some ⟨"QUJD".data⟩, none⟩]⟩⟩]⟩

/-- A history entry (the GeneratedImage record of the application component,
src/unnamed/part_000 lines 24-34). -/
structure GeneratedImage where
  id : String
  data : String
  prompt : String
  timestamp : Nat
  level : String
  style : String
  language : String
  articleContent : String
deriving DecidableEq

/-- restoreImage of the application component (src/unnamed/part_000 lines
177-180): filter out every entry carrying the restored id, then prepend the
restored entry. -/
def restoreImage (imageHistory : List GeneratedImage) (img : GeneratedImage) :
    List GeneratedImage :=
  img :: imageHistory.filter (fun i => decide (¬ i.id = img.id))

def cTenA : GeneratedImage := ⟨"1", "dA", "p", 0, "l", "s", "en", "a"⟩

def cTenB : GeneratedImage := ⟨"2", "dB", "p", 1, "l", "s", "en", "a"⟩

def cTenC : GeneratedImage := ⟨"2", "dC", "p", 2, "l", "s", "en", "a"⟩

/-! ## Supporting lemmas and the claim theorems -/

lemma rotateLoop_trace_isPre (op : String → Except String α) :
    ∀ (keys : List String) (lastError : Option String),
      (rotateLoop op keys lastError).2 <+: keys := by
  intro keys
  induction keys with
  | nil => intro lastError; exact List.nil_prefix
  | cons k ks ih =>
    intro lastError
    cases hop : op k with
    | ok v =>
      have heq : (rotateLoop op (k :: ks) lastError).2 = [k] := by
        simp [rotateLoop, hop]
      rw [heq]
      exact ⟨ks, rfl⟩
    | error e =>
      by_cases hr : isRetryable e = true
      · have heq : (rotateLoop op (k :: ks) lastError).2
            = k :: (rotateLoop op ks (some e)).2 := by
          simp [rotateLoop, hop, hr]
        rw [heq]
        obtain ⟨t, ht⟩ := ih (some e)
        exact ⟨t, by rw [List.cons_append, ht]⟩
      · have hr2 : isRetryable e = false := by simpa using hr
        have heq : (rotateLoop op (k :: ks) lastError).2 = [k] := by
          simp [rotateLoop, hop, hr2]
        rw [heq]
        exact ⟨ks, rfl⟩

lemma rotateLoop_success (op : String → Except String α) :
    ∀ (pre : List String) (k : String) (post : List String) (v : α) (lastError : Option String),
      (∀ kj ∈ pre, ∃ e, op kj = Except.error e ∧ isRetryable e = true) →
      op k = Except.ok v →
      rotateLoop op (pre ++ k :: post) lastError = (Except.ok v, pre ++ [k]) := by
  intro pre
  induction pre with
  | nil =>
    intro k post v lastError _ hk
    unfold rotateLoop
    simp [hk]
  | cons p pre ih =>
    intro k post v lastError hpre hk
    obtain ⟨e, hpe, hre⟩ := hpre p (List.mem_cons_self p pre)
    have hrest := ih k post v (some e) (fun kj hkj => hpre kj (List.mem_cons_of_mem p hkj)) hk
    unfold rotateLoop
    simp [hpe, hre, hrest]

lemma rotateLoop_all_retry (op : String → Except String α) :
    ∀ (keys : List String) (lastError : Option String) (h : keys ≠ []),
      (∀ kj ∈ keys, ∃ e, op kj = Except.error e ∧ isRetryable e = true) →
      rotateLoop op keys lastError = (op (keys.getLast h), keys) := by
  intro keys
  induction keys with
  | nil => intro lastError h _; exact absurd rfl h
  | cons k ks ih =>
    intro lastError h hall
    obtain ⟨e, hke, hre⟩ := hall k (List.mem_cons_self k ks)
    cases ks with
    | nil =>
      unfold rotateLoop
      simp [hke, hre, rotateLoop]
    | cons k2 ks2 =>
      have hrest := ih (some e) (by simp) (fun kj hkj => hall kj (List.mem_cons_of_mem k hkj))
      have heq : rotateLoop op (k :: k2 :: ks2) lastError
          = ((rotateLoop op (k2 :: ks2) (some e)).1,
             k :: (rotateLoop op (k2 :: ks2) (some e)).2) := by
        simp [rotateLoop, hke, hre]
      rw [heq, hrest]
      rfl

lemma rotateLoop_nonretry (op : String → Except String α) :
    ∀ (pre : List String) (k : String) (post : List String) (e : String)
      (lastError : Option String),
      (∀ kj ∈ pre, ∃ e2, op kj = Except.error e2 ∧ isRetryable e2 = true) →
      op k = Except.error e → isRetryable e = false →
      rotateLoop op (pre ++ k :: post) lastError = (Except.error e, pre ++ [k]) := by
  intro pre
  induction pre with
  | nil =>
    intro k post e lastError _ hk hnr
    unfold rotateLoop
    simp [hk, hnr]
  | cons p pre ih =>
    intro k post e lastError hpre hk hnr
    obtain ⟨e2, hpe, hre⟩ := hpre p (List.mem_cons_self p pre)
    have hrest := ih k post e (some e2) (fun kj hkj => hpre kj (List.mem_cons_of_mem p hkj)) hk hnr
    unfold rotateLoop
    simp [hpe, hre, hrest]

lemma executeWithRetry_of_ne_nil (op : Option String → Except String α)
    (keys : List String) (h : keys ≠ []) :
    executeWithRetry op keys = (rotateLoop (fun k => op (some k)) keys none).1 := by
  unfold executeWithRetry
  rw [if_neg]
  simpa using h

/-- C1: for every non-empty credential store and every operation, the executor
invokes the operation with credentials strictly in store order (the attempt
trace is a prefix of the store), never makes more attempts than there are
stored credentials, and whenever the operation succeeds on the credential at
some position after failing retryably on every earlier one, the executor
returns exactly that success and attempts exactly the credentials up to and
including that position. -/
theorem executeWithRetry_rotation_order (op : Option String → Except String α)
    (keys : List String) (h : keys ≠ []) :
    attemptTrace op keys <+: keys ∧
    (attemptTrace op keys).length ≤ keys.length ∧
    (∀ pre k post v, keys = pre ++ k :: post →
      (∀ kj ∈ pre, failsRetryably op kj) →
      op (some k) = Except.ok v →
      executeWithRetry op keys = Except.ok v ∧ attemptTrace op keys = pre ++ [k]) := by
  refine ⟨rotateLoop_trace_isPre _ keys none, ?_, ?_⟩
  · exact List.IsPrefix.length_le (rotateLoop_trace_isPre _ keys none)
  · intro pre k post v hsplit hpre hk
    have hmain := rotateLoop_success (fun k2 => op (some k2)) pre k post v none hpre hk
    rw [executeWithRetry_of_ne_nil op keys h]
    unfold attemptTrace
    rw [hsplit, hmain]
    exact ⟨rfl, rfl⟩

theorem executeWithRetry_rotation_order_witness :
    executeWithRetry cOneOp ["a", "b", "c"] = Except.ok 7 ∧
    attemptTrace cOneOp ["a", "b", "c"] = ["a", "b"] := by
  have h := (executeWithRetry_rotation_order cOneOp ["a", "b", "c"] (by decide)).2.2
    ["a"] "b" ["c"] 7 rfl
    (by
      intro kj hkj
      have : kj = "a" := by simpa using hkj
      subst this
      exact ⟨"429 Too Many Requests", rfl, by decide⟩)
    rfl
  exact h

/-- C2: for every non-empty store of size N on which the operation fails
retryably for every credential, the executor makes exactly N attempts (the
attempt trace is the whole store) and raises the failure produced by the final
credential's attempt. -/
theorem executeWithRetry_all_retryable (op : Option String → Except String α)
    (keys : List String) (h : keys ≠ [])
    (hall : ∀ kj ∈ keys, failsRetryably op kj) :
    attemptTrace op keys = keys ∧
    (attemptTrace op keys).length = keys.length ∧
    executeWithRetry op keys = op (some (keys.getLast h)) := by
  have hmain := rotateLoop_all_retry (fun k => op (some k)) keys none h hall
  refine ⟨?_, ?_, ?_⟩
  · unfold attemptTrace; rw [hmain]
  · unfold attemptTrace; rw [hmain]
  · rw [executeWithRetry_of_ne_nil op keys h, hmain]

theorem executeWithRetry_all_retryable_witness :
    attemptTrace cOneOp ["a", "x"] = ["a", "x"] ∧
    (attemptTrace cOneOp ["a", "x"]).length = 2 ∧
    executeWithRetry cOneOp ["a", "x"] = Except.error "quota exceeded" := by
  have h := executeWithRetry_all_retryable cOneOp ["a", "x"] (by decide)
    (by
      intro kj hkj
      rcases List.mem_pair.mp hkj with h1 | h1 <;> subst h1
      · exact ⟨"429 Too Many Requests", rfl, by decide⟩
      · exact ⟨"quota exceeded", rfl, by decide⟩)
  exact ⟨h.1, h.2.1, h.2.2⟩

/-- C3: if the credential at some position is the first on which the operation
fails with a non-retryable failure, all earlier attempts failing retryably,
the executor makes exactly that many attempts (the earlier credentials plus
that one), raises that failure unchanged, and never invokes the operation with
any later credential. -/
theorem executeWithRetry_nonretryable_stops (op : Option String → Except String α)
    (pre : List String) (k : String) (post : List String) (e : String)
    (hpre : ∀ kj ∈ pre, failsRetryably op kj)
    (hk : op (some k) = Except.error e) (hnr : isRetryable e = false) :
    executeWithRetry op (pre ++ k :: post) = Except.error e ∧
    attemptTrace op (pre ++ k :: post) = pre ++ [k] ∧
    (attemptTrace op (pre ++ k :: post)).length = pre.length + 1 := by
  have hmain := rotateLoop_nonretry (fun k2 => op (some k2)) pre k post e none hpre hk hnr
  have hne : pre ++ k :: post ≠ [] := by simp
  refine ⟨?_, ?_, ?_⟩
  · rw [executeWithRetry_of_ne_nil op _ hne, hmain]
  · unfold attemptTrace; rw [hmain]
  · unfold attemptTrace; rw [hmain]; simp

theorem executeWithRetry_nonretryable_stops_witness :
    executeWithRetry cOneOp ["a", "z", "b"] = Except.error "bad request" ∧
    attemptTrace cOneOp ["a", "z", "b"] = ["a", "z"] ∧
    (attemptTrace cOneOp ["a", "z", "b"]).length = 2 := by
  have h := executeWithRetry_nonretryable_stops cOneOp ["a"] "z" ["b"] "bad request"
    (by
      intro kj hkj
      have : kj = "a" := by simpa using hkj
      subst this
      exact ⟨"429 Too Many Requests", rfl, by decide⟩)
    rfl (by decide)
  exact ⟨h.1, h.2.1, h.2.2⟩

/-- C4 counterexample: a failure message that contains none of the signals the
claim enumerates is nonetheless classified retryable by the code, because the
source additionally rotates on any message containing the substring key
(credential invalidity).  So the claimed if-and-only-if is false as stated. -/
theorem isRetryable_extra_key_signal :
    isRetryable "API key not valid. Please pass a valid API key." = true ∧
    claimTransientSignals "API key not valid. Please pass a valid API key." = false := by
  constructor <;> decide

/-- C4 amended: the executor classifies a failure as retryable if and only if
its message contains one of the claim's five transient-failure signals or the
substring key, the code's sixth signal indicating credential invalidity. -/
theorem isRetryable_iff_signals (msg : String) :
    isRetryable msg = (claimTransientSignals msg || includesSub msg "key") := by
  unfold isRetryable claimTransientSignals
  cases includesSub msg "429" <;> cases includesSub msg "403" <;>
    cases includesSub msg "quota" <;> cases includesSub msg "key" <;>
    cases includesSub msg "PERMISSION_DENIED" <;>
    cases includesSub msg "RESOURCE_EXHAUSTED" <;> rfl

/-- C5: the facts sequence always has at most 5 entries; when the facts
section is absent the result is the empty sequence; when every line of the
extracted section is blank after marker stripping the result is the empty
sequence; and on the specified concrete scenario the parser extracts exactly
the fact line with its marker stripped. -/
theorem parseFacts_spec (text : List Char) :
    (parseFacts text).length ≤ 5 ∧
    (findPrefixPos (startsWithCI hdrFacts) text = none → parseFacts text = []) ∧
    ((∀ f ∈ (trimJS ((sectionAfterFacts? text).getD [])).splitOn '\n',
        trimJS (stripListMarker f) = []) → parseFacts text = []) ∧
    parseFacts "FACTS:\n- Plants use sunlight\nARTICLE:\nText".data
      = ["Plants use sunlight".data] := by
  refine ⟨List.length_take_le 5 _, ?_, ?_, by decide⟩
  · intro hnone
    have hsec : sectionAfterFacts? text = none := by
      unfold sectionAfterFacts?
      rw [hnone]
    unfold parseFacts
    rw [hsec]
    rfl
  · intro hall
    have hfil : (((trimJS ((sectionAfterFacts? text).getD [])).splitOn '\n').map
        (fun f => trimJS (stripListMarker f))).filter (fun f => decide (0 < f.length)) = [] := by
      rw [List.filter_eq_nil_iff]
      intro a ha
      obtain ⟨f, hf, rfl⟩ := List.mem_map.mp ha
      rw [hall f hf]
      decide
    unfold parseFacts
    rw [hfil]
    rfl

theorem parseFacts_spec_witness :
    (parseFacts "no sections here".data).length ≤ 5 ∧
    parseFacts "no sections here".data = [] :=
  ⟨(parseFacts_spec "no sections here".data).1,
   (parseFacts_spec "no sections here".data).2.1 (by decide)⟩

/-- C6 counterexample: the claim asserts the imagePrompt field is always
non-empty, but when the IMAGE_PROMPT: header is present with nothing after
it the code returns the trimmed empty capture, which is empty. -/
theorem parseImagePrompt_nonempty_cex :
    parseImagePrompt "IMAGE_PROMPT:".data "Photosynthesis".data "Level".data "Style".data
      = [] := by
  decide

/-- C6 amended: when the IMAGE_PROMPT: section is present the imagePrompt is
the trimmed text after the header to the end of the text, which is empty when
the section is blank (so imagePrompt is not always non-empty); when the header
is absent it is the synthesized fallback, which contains the literal topic
string and is non-empty. -/
theorem parseImagePrompt_spec (text topic levelInstr styleInstr : List Char) :
    (∀ i, findPrefixPos (startsWithCI hdrImagePrompt) text = some i →
      parseImagePrompt text topic levelInstr styleInstr
        = trimJS (((text.drop i).drop hdrImagePrompt.length).dropWhile isSpaceJS)) ∧
    (findPrefixPos (startsWithCI hdrImagePrompt) text = none →
      parseImagePrompt text topic levelInstr styleInstr
        = fallbackPrompt topic levelInstr styleInstr ∧
      topic <:+: parseImagePrompt text topic levelInstr styleInstr ∧
      parseImagePrompt text topic levelInstr styleInstr ≠ []) := by
  constructor
  · intro i hi
    unfold parseImagePrompt sectionAfterImagePrompt?
    rw [hi]
    rfl
  · intro hnone
    have hsec : sectionAfterImagePrompt? text = none := by
      unfold sectionAfterImagePrompt?
      rw [hnone]
    have heq : parseImagePrompt text topic levelInstr styleInstr
        = fallbackPrompt topic levelInstr styleInstr := by
      unfold parseImagePrompt
      rw [hsec]
      rfl
    refine ⟨heq, ?_, ?_⟩
    · rw [heq]
      exact ⟨"Create a detailed infographic about ".data,
        ". ".data ++ levelInstr ++ " ".data ++ styleInstr,
        by simp [fallbackPrompt, List.append_assoc]⟩
    · rw [heq]
      intro hnil
      have hhd : (fallbackPrompt topic levelInstr styleInstr).head? = none := by
        rw [hnil]
        rfl
      rw [show (fallbackPrompt topic levelInstr styleInstr).head? = some 'C' from rfl] at hhd
      exact Option.noConfusion hhd

theorem parseImagePrompt_spec_witness :
    parseImagePrompt "plain text".data "Photo".data "L".data "S".data
      = fallbackPrompt "Photo".data "L".data "S".data ∧
    "Photo".data <:+: parseImagePrompt "plain text".data "Photo".data "L".data "S".data ∧
    parseImagePrompt "plain text".data "Photo".data "L".data "S".data ≠ [] :=
  (parseImagePrompt_spec "plain text".data "Photo".data "L".data "S".data).2 (by decide)

lemma mapSet_of_not_mem (m : List SearchResultItem) (item : SearchResultItem)
    (h : ∀ x ∈ m, ¬ x.url = item.url) : mapSet m item = m ++ [item] := by
  unfold mapSet
  rw [if_neg]
  rintro ⟨x, hx, hxe⟩
  exact h x hx hxe

lemma mapSet_of_mem (m : List SearchResultItem) (item : SearchResultItem)
    (h : ∃ x ∈ m, x.url = item.url) :
    mapSet m item = m.map (fun x => if x.url = item.url then item else x) := by
  unfold mapSet
  rw [if_pos h]

lemma distinctUrls_mapSet (m : List SearchResultItem) (i : SearchResultItem)
    (hm : distinctUrls m) : distinctUrls (mapSet m i) := by
  by_cases hmem : ∃ x ∈ m, x.url = i.url
  · rw [mapSet_of_mem m i hmem]
    rw [distinctUrls, List.pairwise_map]
    refine hm.imp ?_
    intro a b hab
    by_cases ha : a.url = i.url <;> by_cases hb : b.url = i.url <;>
      simp only [ha, hb, if_pos, if_neg, if_true, if_false] <;>
      first
        | (intro hc; exact hab (by rw [ha, hb]))
        | (intro hc; exact hab (by rw [← hc] at *; rfl))
        | simpa [ha, hb] using hab
  · push_neg at hmem
    rw [mapSet_of_not_mem m i (fun x hx => hmem x hx)]
    rw [distinctUrls, List.pairwise_append]
    exact ⟨hm, List.pairwise_singleton _ _, by
      intro a ha b hb
      rw [List.mem_singleton] at hb
      subst hb
      exact hmem a ha⟩

lemma distinctUrls_foldl :
    ∀ (l m : List SearchResultItem), distinctUrls m → distinctUrls (l.foldl mapSet m) := by
  intro l
  induction l with
  | nil => intro m hm; exact hm
  | cons i rest ih =>
    intro m hm
    rw [List.foldl_cons]
    exact ih (mapSet m i) (distinctUrls_mapSet m i hm)

lemma dedupByUrlSpec_cons (x : SearchResultItem) (rest : List SearchResultItem) :
    dedupByUrlSpec (x :: rest) =
      (rest.filter (fun y => decide (y.url = x.url))).getLastD x ::
        dedupByUrlSpec (rest.filter (fun y => decide (¬ y.url = x.url))) := by
  rw [dedupByUrlSpec]

lemma getLastD_cons_filter (i x : SearchResultItem) (rest : List SearchResultItem) :
    (((i :: rest).filter (fun y => decide (y.url = x.url))).getLastD x)
      = if x.url = i.url
        then (rest.filter (fun y => decide (y.url = i.url))).getLastD i
        else (rest.filter (fun y => decide (y.url = x.url))).getLastD x := by
  by_cases hx : x.url = i.url
  · rw [if_pos hx, List.filter_cons]
    rw [decide_eq_true (show i.url = x.url from hx.symm ▸ rfl)]
    simp only [if_true]
    rw [List.getLastD_cons]
    congr 1
    exact List.filter_congr (fun y _ => by rw [hx])
  · rw [if_neg hx, List.filter_cons]
    rw [decide_eq_false (show ¬ i.url = x.url from fun hc => hx hc.symm)]
    simp

lemma urlNotIn_append_singleton (m : List SearchResultItem) (i a : SearchResultItem) :
    (decide (¬ a.url = i.url) && urlNotIn m a) = urlNotIn (m ++ [i]) a := by
  unfold urlNotIn
  rcases Decidable.em (a.url = i.url) with h | h
  · rw [decide_eq_false (fun hn => hn h), Bool.false_and]
    symm
    rw [decide_eq_false]
    intro hall
    exact hall i (by simp) h.symm
  · rw [decide_eq_true h, Bool.true_and]
    apply decide_eq_decide.mpr
    constructor
    · intro hm x hx
      rcases List.mem_append.mp hx with hx | hx
      · exact hm x hx
      · rw [List.mem_singleton] at hx
        subst hx
        exact fun hc => h hc.symm
    · intro hall x hx
      exact hall x (List.mem_append_left _ hx)

lemma foldl_mapSet_spec :
    ∀ (l m : List SearchResultItem), distinctUrls m →
      l.foldl mapSet m =
        m.map (fun x => (l.filter (fun y => decide (y.url = x.url))).getLastD x) ++
        dedupByUrlSpec (l.filter (urlNotIn m)) := by
  intro l
  induction l with
  | nil =>
    intro m hm
    simp [dedupByUrlSpec, List.map_id']
  | cons i rest ih =>
    intro m hm
    rw [List.foldl_cons]
    by_cases hmem : ∃ x ∈ m, x.url = i.url
    · rw [mapSet_of_mem m i hmem]
      have hfurl : ∀ x : SearchResultItem,
          ((if x.url = i.url then i else x) : SearchResultItem).url = x.url := by
        intro x
        by_cases hx : x.url = i.url
        · rw [if_pos hx, hx]
        · rw [if_neg hx]
      have hm' : distinctUrls (m.map (fun x => if x.url = i.url then i else x)) := by
        rw [distinctUrls, List.pairwise_map]
        refine hm.imp ?_
        intro a b hab
        rw [Ne, ← hfurl a, ← hfurl b] at hab
        exact hab
      rw [ih _ hm']
      have hmap : (m.map (fun x => if x.url = i.url then i else x)).map
            (fun x => (rest.filter (fun y => decide (y.url = x.url))).getLastD x)
          = m.map (fun x =>
              ((i :: rest).filter (fun y => decide (y.url = x.url))).getLastD x) := by
        rw [List.map_map]
        apply List.map_congr_left
        intro x _
        simp only [Function.comp]
        by_cases hx : x.url = i.url
        · have hfx2 : (if x.url = i.url then i else x) = i := if_pos hx
          simp only [hfx2]
          rw [getLastD_cons_filter, if_pos hx]
        · have hfx2 : (if x.url = i.url then i else x) = x := if_neg hx
          simp only [hfx2]
          rw [getLastD_cons_filter, if_neg hx]
      have hfil : rest.filter (urlNotIn (m.map (fun x => if x.url = i.url then i else x)))
          = (i :: rest).filter (urlNotIn m) := by
        rw [List.filter_cons]
        have hni : urlNotIn m i = false := by
          unfold urlNotIn
          apply decide_eq_false
          intro hall
          obtain ⟨x, hx, hxe⟩ := hmem
          exact hall x hx hxe
        rw [hni]
        simp only [Bool.false_eq_true, if_false]
        apply List.filter_congr
        intro y _
        unfold urlNotIn
        apply decide_eq_decide.mpr
        rw [List.forall_mem_map]
        constructor
        · intro hall x hx
          have := hall x hx
          rw [hfurl x] at this
          exact this
        · intro hall x hx
          rw [hfurl x]
          exact hall x hx
      rw [hmap, hfil]
    · push_neg at hmem
      rw [mapSet_of_not_mem m i hmem]
      have hm' : distinctUrls (m ++ [i]) := by
        rw [distinctUrls, List.pairwise_append]
        refine ⟨hm, List.pairwise_singleton _ _, ?_⟩
        intro a ha b hb
        rw [List.mem_singleton] at hb
        subst hb
        exact hmem a ha
      rw [ih _ hm']
      have hfil : (i :: rest).filter (urlNotIn m) = i :: rest.filter (urlNotIn m) := by
        rw [List.filter_cons]
        have hyi : urlNotIn m i = true := by
          unfold urlNotIn
          exact decide_eq_true hmem
        rw [hyi]
        simp
      rw [hfil, dedupByUrlSpec_cons]
      have hhead : (rest.filter (fun y => decide (y.url = i.url))).getLastD i
          = ((rest.filter (urlNotIn m)).filter
              (fun y => decide (y.url = i.url))).getLastD i := by
        congr 1
        rw [List.filter_filter]
        symm
        apply List.filter_congr
        intro y _
        rcases Decidable.em (y.url = i.url) with h | h
        · rw [decide_eq_true h]
          have : urlNotIn m y = true := by
            unfold urlNotIn
            apply decide_eq_true
            intro x hx
            rw [h]
            exact hmem x hx
          rw [this, Bool.and_true]
        · rw [decide_eq_false h]
          simp
      have htail : rest.filter (urlNotIn (m ++ [i]))
          = (rest.filter (urlNotIn m)).filter (fun y => decide (¬ y.url = i.url)) := by
        rw [List.filter_filter]
        symm
        apply List.filter_congr
        intro y _
        exact urlNotIn_append_singleton m i y
      rw [htail]
      rw [List.map_append]
      have hmapm : m.map (fun x =>
            ((i :: rest).filter (fun y => decide (y.url = x.url))).getLastD x)
          = m.map (fun x =>
            (rest.filter (fun y => decide (y.url = x.url))).getLastD x) := by
        apply List.map_congr_left
        intro x hx
        rw [getLastD_cons_filter]
        rw [if_neg (hmem x hx)]
      rw [hmapm, ← hhead]
      simp only [List.map_cons, List.map_nil]
      rw [List.append_assoc, List.singleton_append]

lemma mem_foldl_mapSet (P : SearchResultItem → Prop) :
    ∀ (l m : List SearchResultItem), (∀ x ∈ m, P x) → (∀ x ∈ l, P x) →
      ∀ x ∈ l.foldl mapSet m, P x := by
  intro l
  induction l with
  | nil => intro m hm _ x hx; exact hm x hx
  | cons i rest ih =>
    intro m hm hl
    rw [List.foldl_cons]
    apply ih
    · intro x hx
      unfold mapSet at hx
      split at hx
      · obtain ⟨z, hz, hfz⟩ := List.mem_map.mp hx
        by_cases hzz : z.url = i.url
        · rw [if_pos hzz] at hfz
          subst hfz
          exact hl i (List.mem_cons_self i rest)
        · rw [if_neg hzz] at hfz
          subst hfz
          exact hm z hz
      · rcases List.mem_append.mp hx with hx | hx
        · exact hm x hx
        · rw [List.mem_singleton] at hx
          subst hx
          exact hl x (List.mem_cons_self x rest)
    · intro x hx
      exact hl x (List.mem_cons_of_mem i hx)

lemma collect_mem_pos (chunks : List GroundingChunk) :
    ∀ x ∈ collectSearchResults chunks, 0 < x.url.length ∧ 0 < x.title.length := by
  intro x hx
  obtain ⟨c, hc, hcx⟩ := List.mem_filterMap.mp hx
  unfold chunkItem? at hcx
  cases hw : c.web with
  | none =>
    simp [hw] at hcx
  | some w =>
    simp only [hw] at hcx
    by_cases hcond : 0 < w.uri.length ∧ 0 < w.title.length
    · rw [if_pos hcond] at hcx
      cases hcx
      exact ⟨hcond.1, hcond.2⟩
    · rw [if_neg hcond] at hcx
      exact Option.noConfusion hcx

/-- C7: the searchResults field keeps only references with a present,
non-empty title and uri, and collapses entries sharing a url so that no two
survivors share a url; the survivor for a url sits at the position of the
first occurrence of that url and carries the value of the last occurrence,
exactly the claimed keyed-collapse semantics (dedupByUrlSpec). -/
theorem uniqueResults_spec (chunks : List GroundingChunk) :
    uniqueResults (collectSearchResults chunks)
      = dedupByUrlSpec (collectSearchResults chunks) ∧
    distinctUrls (uniqueResults (collectSearchResults chunks)) ∧
    (∀ item ∈ uniqueResults (collectSearchResults chunks),
      0 < item.url.length ∧ 0 < item.title.length) := by
  refine ⟨?_, distinctUrls_foldl _ [] List.Pairwise.nil, ?_⟩
  · unfold uniqueResults
    rw [foldl_mapSet_spec _ [] List.Pairwise.nil]
    simp only [List.map_nil, List.nil_append]
    have hfl : (collectSearchResults chunks).filter (urlNotIn [])
        = collectSearchResults chunks := by
      rw [List.filter_eq_self]
      intro a _
      unfold urlNotIn
      apply decide_eq_true
      intro x hx
      exact absurd hx (List.not_mem_nil x)
    rw [hfl]
  · intro item hitem
    exact mem_foldl_mapSet _ (collectSearchResults chunks) []
      (fun x hx => absurd hx (List.not_mem_nil x)) (collect_mem_pos chunks) item hitem

theorem uniqueResults_spec_witness :
    uniqueResults (collectSearchResults cSevenChunks)
      = dedupByUrlSpec (collectSearchResults cSevenChunks) ∧
    distinctUrls (uniqueResults (collectSearchResults cSevenChunks)) ∧
    (0 < (⟨"t3".data, "u1".data⟩ : SearchResultItem).url.length ∧
     0 < (⟨"t3".data, "u1".data⟩ : SearchResultItem).title.length) :=
  ⟨(uniqueResults_spec cSevenChunks).1, (uniqueResults_spec cSevenChunks).2.1,
   (uniqueResults_spec cSevenChunks).2.2 ⟨"t3".data, "u1".data⟩ (by decide)⟩

lemma isPrefixOf_append_self (x p : List Char) : x.isPrefixOf (x ++ p) = true :=
  List.isPrefixOf_iff_prefix.mpr (List.prefix_append x p)

lemma isPrefixOf_append_same (c : List Char) : ∀ (x y : List Char),
    (c ++ x).isPrefixOf (c ++ y) = x.isPrefixOf y := by
  induction c with
  | nil => intro x y; rfl
  | cons d ds ih =>
    intro x y
    simp only [List.cons_append]
    show (d == d && (ds ++ x).isPrefixOf (ds ++ y)) = x.isPrefixOf y
    rw [beq_self_eq_true, Bool.true_and]
    exact ih x y

lemma isPrefixOf_cons_ne (a b : Char) (x y : List Char) (h : (a == b) = false) :
    (a :: x).isPrefixOf (b :: y) = false := by
  show (a == b && x.isPrefixOf y) = false
  rw [h, Bool.false_and]

lemma takeWhile_append_all (p : Char → Bool) :
    ∀ (a b : List Char), (∀ c ∈ a, p c = true) →
      (a ++ b).takeWhile p = a ++ b.takeWhile p := by
  intro a
  induction a with
  | nil => intro b _; rfl
  | cons c cs ih =>
    intro b hall
    rw [List.cons_append, List.takeWhile_cons, hall c (List.mem_cons_self c cs)]
    simp only [if_true]
    rw [ih b (fun d hd => hall d (List.mem_cons_of_mem c hd))]
    rfl

lemma detectMimeType_of_shape (t p : List Char) (ht : 0 < t.length)
    (hall : ∀ c ∈ t, isMimeChar c = true) :
    detectMimeType ("data:image/".data ++ t ++ (";base64,".data ++ p))
      = "image/".data ++ t := by
  have hassoc : "data:image/".data ++ t ++ (";base64,".data ++ p)
      = "data:image/".data ++ (t ++ (";base64,".data ++ p)) := by
    rw [List.append_assoc]
  have hdrop : ("data:image/".data ++ t ++ (";base64,".data ++ p)).drop
      ("data:image/".data).length = t ++ (";base64,".data ++ p) := by
    rw [hassoc, List.drop_left]
  have hsemi : (";base64,".data ++ p).takeWhile isMimeChar = [] := by
    show ((';' :: "base64,".data) ++ p).takeWhile isMimeChar = []
    rw [List.cons_append, List.takeWhile_cons]
    rw [show isMimeChar ';' = false from by decide]
    simp
  have hrun : (("data:image/".data ++ t ++ (";base64,".data ++ p)).drop
      ("data:image/".data).length).takeWhile isMimeChar = t := by
    rw [hdrop, takeWhile_append_all _ t _ hall, hsemi, List.append_nil]
  have hmatch : dataUriMatches ("data:image/".data ++ t ++ (";base64,".data ++ p)) = true := by
    unfold dataUriMatches
    rw [hrun, hdrop]
    rw [List.drop_left, hassoc, isPrefixOf_append_self, isPrefixOf_append_self]
    rw [decide_eq_true ht]
    rfl
  unfold detectMimeType
  rw [hmatch, hrun]
  simp

lemma cleanBase64_png (p : List Char) : cleanBase64 (dataUriHeadPng ++ p) = p := by
  unfold cleanBase64
  rw [isPrefixOf_append_self, if_pos rfl, List.drop_left]

lemma png_not_isPre_jpeg (p : List Char) :
    dataUriHeadPng.isPrefixOf (dataUriHeadJpeg ++ p) = false := by
  show ("data:image/".data ++ "png;base64,".data).isPrefixOf
      ("data:image/".data ++ ("jpeg;base64,".data ++ p)) = false
  rw [isPrefixOf_append_same]
  exact isPrefixOf_cons_ne 'p' 'j' _ _ (by decide)

lemma png_not_isPre_jpg (p : List Char) :
    dataUriHeadPng.isPrefixOf (dataUriHeadJpg ++ p) = false := by
  show ("data:image/".data ++ "png;base64,".data).isPrefixOf
      ("data:image/".data ++ ("jpg;base64,".data ++ p)) = false
  rw [isPrefixOf_append_same]
  exact isPrefixOf_cons_ne 'p' 'j' _ _ (by decide)

lemma jpeg_not_isPre_jpg (p : List Char) :
    dataUriHeadJpeg.isPrefixOf (dataUriHeadJpg ++ p) = false := by
  show ("data:image/jp".data ++ "eg;base64,".data).isPrefixOf
      ("data:image/jp".data ++ ("g;base64,".data ++ p)) = false
  rw [isPrefixOf_append_same]
  exact isPrefixOf_cons_ne 'e' 'g' _ _ (by decide)

lemma cleanBase64_jpeg (p : List Char) : cleanBase64 (dataUriHeadJpeg ++ p) = p := by
  unfold cleanBase64
  rw [png_not_isPre_jpeg]
  simp only [Bool.false_eq_true, if_false]
  rw [isPrefixOf_append_self, if_pos rfl, List.drop_left]

lemma cleanBase64_jpg (p : List Char) : cleanBase64 (dataUriHeadJpg ++ p) = p := by
  unfold cleanBase64
  rw [png_not_isPre_jpg]
  simp only [Bool.false_eq_true, if_false]
  rw [jpeg_not_isPre_jpg]
  simp only [Bool.false_eq_true, if_false]
  rw [isPrefixOf_append_self, if_pos rfl, List.drop_left]

/-- C8 counterexample: the input data:image/webp;base64,QUJD is of the
recognized form data:image/<type>;base64,<payload>, and the claim says the
request then carries exactly the payload QUJD; but the strip regex handles
only png, jpeg and jpg, so the code sends the entire data URI as the inline
data while still detecting mime type image/webp. -/
theorem editInfographicImage_cex :
    (editInfographicImage "data:image/webp;base64,QUJD".data "edit".data).data
      = "data:image/webp;base64,QUJD".data ∧
    (editInfographicImage "data:image/webp;base64,QUJD".data "edit".data).data
      ≠ "QUJD".data ∧
    (editInfographicImage "data:image/webp;base64,QUJD".data "edit".data).mimeType
      = "image/webp".data := by
  refine ⟨by decide, by decide, by decide⟩

/-- C8 amended: the data-URI head is stripped from the sent inline data
exactly for the types png, jpeg and jpg, with the mime type detected from the
head; for any other recognized type the detected mime type is still
image/<type> but the data is sent with the head left in place (the strip
regex recognizes only the three types); and whenever the anchored pattern
does not match, the mime type defaults to image/png. -/
theorem editInfographicImage_spec (p instr t : List Char) :
    editInfographicImage (dataUriHeadPng ++ p) instr
      = ⟨p, "image/png".data, instr⟩ ∧
    editInfographicImage (dataUriHeadJpeg ++ p) instr
      = ⟨p, "image/jpeg".data, instr⟩ ∧
    editInfographicImage (dataUriHeadJpg ++ p) instr
      = ⟨p, "image/jpg".data, instr⟩ ∧
    (0 < t.length → (∀ c ∈ t, isMimeChar c = true) →
      detectMimeType ("data:image/".data ++ t ++ (";base64,".data ++ p))
        = "image/".data ++ t ∧
      (t ≠ "png".data → t ≠ "jpeg".data → t ≠ "jpg".data →
        cleanBase64 ("data:image/".data ++ t ++ (";base64,".data ++ p))
          = "data:image/".data ++ t ++ (";base64,".data ++ p))) ∧
    (∀ s, dataUriMatches s = false → detectMimeType s = "image/png".data) := by
  refine ⟨?_, ?_, ?_, ?_, ?_⟩
  · unfold editInfographicImage
    rw [cleanBase64_png]
    rw [show detectMimeType (dataUriHeadPng ++ p) = "image/png".data from
      detectMimeType_of_shape "png".data p (by decide) (by decide)]
  · unfold editInfographicImage
    rw [cleanBase64_jpeg]
    rw [show detectMimeType (dataUriHeadJpeg ++ p) = "image/jpeg".data from
      detectMimeType_of_shape "jpeg".data p (by decide) (by decide)]
  · unfold editInfographicImage
    rw [cleanBase64_jpg]
    rw [show detectMimeType (dataUriHeadJpg ++ p) = "image/jpg".data from
      detectMimeType_of_shape "jpg".data p (by decide) (by decide)]
  · intro ht hall
    refine ⟨detectMimeType_of_shape t p ht hall, ?_⟩
    intro hnp hnjpeg hnjpg
    unfold cleanBase64
    rw [if_neg, if_neg, if_neg]
    · intro hpre
      apply hnjpg
      have := (List.isPrefixOf_iff_prefix.mp hpre)
      obtain ⟨rest, hrest⟩ := this
      have hjpg : dataUriHeadJpg = "data:image/".data ++ "jpg;base64,".data := rfl
      rw [hjpg, List.append_assoc] at hrest
      rw [List.append_assoc] at hrest
      have hrest2 := List.append_cancel_left hrest
      have h3 : ("jpg;base64,".data ++ rest).takeWhile isMimeChar
          = (t ++ (";base64,".data ++ p)).takeWhile isMimeChar := by rw [hrest2]
      rw [takeWhile_append_all _ t _ hall] at h3
      rw [show (";base64,".data ++ p).takeWhile isMimeChar = [] from ?semi] at h3
      case semi =>
        show ((';' :: "base64,".data) ++ p).takeWhile isMimeChar = []
        rw [List.cons_append, List.takeWhile_cons]
        rw [show isMimeChar ';' = false from by decide]
        simp
      rw [List.append_nil] at h3
      rw [show ("jpg;base64,".data ++ rest).takeWhile isMimeChar
          = "jpg".data ++ ((";base64,".data ++ rest).takeWhile isMimeChar) from
        takeWhile_append_all _ "jpg".data _ (by decide)] at h3
      rw [show (";base64,".data ++ rest).takeWhile isMimeChar = [] from ?semi2] at h3
      case semi2 =>
        show ((';' :: "base64,".data) ++ rest).takeWhile isMimeChar = []
        rw [List.cons_append, List.takeWhile_cons]
        rw [show isMimeChar ';' = false from by decide]
        simp
      rw [List.append_nil] at h3
      exact h3.symm
    · intro hpre
      apply hnjpeg
      obtain ⟨rest, hrest⟩ := List.isPrefixOf_iff_prefix.mp hpre
      have hjpeg : dataUriHeadJpeg = "data:image/".data ++ "jpeg;base64,".data := rfl
      rw [hjpeg, List.append_assoc] at hrest
      rw [List.append_assoc] at hrest
      have hrest2 := List.append_cancel_left hrest
      have h3 : ("jpeg;base64,".data ++ rest).takeWhile isMimeChar
          = (t ++ (";base64,".data ++ p)).takeWhile isMimeChar := by rw [hrest2]
      rw [takeWhile_append_all _ t _ hall] at h3
      rw [show (";base64,".data ++ p).takeWhile isMimeChar = [] from ?semi3] at h3
      case semi3 =>
        show ((';' :: "base64,".data) ++ p).takeWhile isMimeChar = []
        rw [List.cons_append, List.takeWhile_cons]
        rw [show isMimeChar ';' = false from by decide]
        simp
      rw [List.append_nil] at h3
      rw [show ("jpeg;base64,".data ++ rest).takeWhile isMimeChar
          = "jpeg".data ++ ((";base64,".data ++ rest).takeWhile isMimeChar) from
        takeWhile_append_all _ "jpeg".data _ (by decide)] at h3
      rw [show (";base64,".data ++ rest).takeWhile isMimeChar = [] from ?semi4] at h3
      case semi4 =>
        show ((';' :: "base64,".data) ++ rest).takeWhile isMimeChar = []
        rw [List.cons_append, List.takeWhile_cons]
        rw [show isMimeChar ';' = false from by decide]
        simp
      rw [List.append_nil] at h3
      exact h3.symm
    · intro hpre
      apply hnp
      obtain ⟨rest, hrest⟩ := List.isPrefixOf_iff_prefix.mp hpre
      have hpng : dataUriHeadPng = "data:image/".data ++ "png;base64,".data := rfl
      rw [hpng, List.append_assoc] at hrest
      rw [List.append_assoc] at hrest
      have hrest2 := List.append_cancel_left hrest
      have h3 : ("png;base64,".data ++ rest).takeWhile isMimeChar
          = (t ++ (";base64,".data ++ p)).takeWhile isMimeChar := by rw [hrest2]
      rw [takeWhile_append_all _ t _ hall] at h3
      rw [show (";base64,".data ++ p).takeWhile isMimeChar = [] from ?semi5] at h3
      case semi5 =>
        show ((';' :: "base64,".data) ++ p).takeWhile isMimeChar = []
        rw [List.cons_append, List.takeWhile_cons]
        rw [show isMimeChar ';' = false from by decide]
        simp
      rw [List.append_nil] at h3
      rw [show ("png;base64,".data ++ rest).takeWhile isMimeChar
          = "png".data ++ ((";base64,".data ++ rest).takeWhile isMimeChar) from
        takeWhile_append_all _ "png".data _ (by decide)] at h3
      rw [show (";base64,".data ++ rest).takeWhile isMimeChar = [] from ?semi6] at h3
      case semi6 =>
        show ((';' :: "base64,".data) ++ rest).takeWhile isMimeChar = []
        rw [List.cons_append, List.takeWhile_cons]
        rw [show isMimeChar ';' = false from by decide]
        simp
      rw [List.append_nil] at h3
      exact h3.symm
  · intro s hfail
    unfold detectMimeType
    rw [hfail]
    simp

theorem editInfographicImage_spec_witness :
    editInfographicImage (dataUriHeadPng ++ "QUJD".data) "edit".data
      = ⟨"QUJD".data, "image/png".data, "edit".data⟩ ∧
    detectMimeType ("data:image/".data ++ "webp".data ++ (";base64,".data ++ "QUJD".data))
      = "image/".data ++ "webp".data ∧
    cleanBase64 ("data:image/".data ++ "webp".data ++ (";base64,".data ++ "QUJD".data))
      = "data:image/".data ++ "webp".data ++ (";base64,".data ++ "QUJD".data) ∧
    detectMimeType "nope".data = "image/png".data := by
  refine ⟨(editInfographicImage_spec "QUJD".data "edit".data "webp".data).1, ?_, ?_, ?_⟩
  · exact ((editInfographicImage_spec "QUJD".data "edit".data "webp".data).2.2.2.1
      (by decide) (by decide)).1
  · exact ((editInfographicImage_spec "QUJD".data "edit".data "webp".data).2.2.2.1
      (by decide) (by decide)).2 (by decide) (by decide) (by decide)
  · exact (editInfographicImage_spec "QUJD".data "edit".data "webp".data).2.2.2.2
      "nope".data (by decide)

lemma findSome?_first (f : RespPart → Option (List Char)) :
    ∀ (pre : List RespPart) (part : RespPart) (post : List RespPart) (d : List Char),
      (∀ q ∈ pre, f q = none) → f part = some d →
      (pre ++ part :: post).findSome? f = some d := by
  intro pre
  induction pre with
  | nil =>
    intro part post d _ hp
    rw [List.nil_append, List.findSome?_cons, hp]
  | cons q pre ih =>
    intro part post d hall hp
    rw [List.cons_append, List.findSome?_cons, hall q (List.mem_cons_self q pre)]
    exact ih part post d (fun q2 hq2 => hall q2 (List.mem_cons_of_mem q hq2)) hp

/-- C9: when the response parts are accessible and some part carries inline
image data, the generate operation returns the first such part's data wrapped
as a png data URI; and it raises the explicit no-image failure exactly when no
accessible part carries inline image data (in particular also when the parts
chain itself is absent). -/
theorem generateInfographicImage_spec (r : GenResponse) :
    (∀ ps pre part post d, respParts? r = some ps → ps = pre ++ part :: post →
      (∀ q ∈ pre, partImageData? q = none) → partImageData? part = some d →
      generateInfographicImage r = Except.ok ("data:image/png;base64,".data ++ d)) ∧
    (generateInfographicImage r = Except.error "Failed to generate image".data ↔
      ∀ ps, respParts? r = some ps → ∀ part ∈ ps, partImageData? part = none) := by
  constructor
  · intro ps pre part post d hps hsplit hall hpart
    have h1 : ps.findSome? partImageData? = some d := by
      rw [hsplit]
      exact findSome?_first _ pre part post d hall hpart
    simp only [generateInfographicImage, hps, h1]
  · constructor
    · intro herr ps hps part hmem
      cases hpd : partImageData? part with
      | none => rfl
      | some d =>
        exfalso
        have hfs : ps.findSome? partImageData? ≠ none := by
          intro hn
          rw [List.findSome?_eq_none_iff] at hn
          rw [hn part hmem] at hpd
          exact Option.noConfusion hpd
        cases hfs2 : ps.findSome? partImageData? with
        | none => exact hfs hfs2
        | some d2 =>
          have hok : generateInfographicImage r
              = Except.ok ("data:image/png;base64,".data ++ d2) := by
            simp only [generateInfographicImage, hps, hfs2]
          rw [hok] at herr
          exact Except.noConfusion herr
    · intro hall
      cases hps : respParts? r with
      | none => simp only [generateInfographicImage, hps]
      | some ps =>
        have hn : ps.findSome? partImageData? = none :=
          List.findSome?_eq_none_iff.mpr (hall ps hps)
        simp only [generateInfographicImage, hps, hn]

theorem generateInfographicImage_spec_witness :
    generateInfographicImage cNineResponse
      = Except.ok ("data:image/png;base64,".data ++ "QUJD".data) :=
  (generateInfographicImage_spec cNineResponse).1
    [⟨none, some "hello".data⟩, ⟨some ⟨"QUJD".data⟩, none⟩]
    [⟨none, some "hello".data⟩] ⟨some ⟨"QUJD".data⟩, none⟩ [] "QUJD".data
    (by decide) (by decide) (by decide) (by decide)

/-- C10 counterexample: the claim assumes only that the restored entry is the
sole holder of its id and concludes the restored history has no duplicate id
values; but duplicates among the other entries survive a restore untouched.
Here b and c share an id, a is the unique holder of its id, and restoring a
leaves the duplicate pair in place. -/
theorem restoreImage_cex :
    cTenA ∈ [cTenA, cTenB, cTenC] ∧
    (∀ x ∈ [cTenA, cTenB, cTenC], x.id = cTenA.id → x = cTenA) ∧
    ¬ ((restoreImage [cTenA, cTenB, cTenC] cTenA).map (fun i => i.id)).Nodup := by
  refine ⟨by decide, by decide, by decide⟩

lemma filter_ne_id_eq_erase :
    ∀ (h : List GeneratedImage) (img : GeneratedImage), img ∈ h →
      ((h.map (fun i => i.id)).Nodup) →
      h.filter (fun i => decide (¬ i.id = img.id)) = h.erase img := by
  intro h
  induction h with
  | nil => intro img hmem _; exact absurd hmem (List.not_mem_nil img)
  | cons x xs ih =>
    intro img hmem hnd
    rw [List.map_cons, List.nodup_cons] at hnd
    by_cases hx : x = img
    · subst hx
      rw [List.filter_cons]
      rw [decide_eq_false (by simp)]
      simp only [Bool.false_eq_true, if_false]
      rw [List.erase_cons_head]
      rw [List.filter_eq_self]
      intro a ha
      apply decide_eq_true
      intro hc
      exact hnd.1 (by rw [← hc]; exact List.mem_map_of_mem _ ha)
    · have hmem2 : img ∈ xs := by
        rcases List.mem_cons.mp hmem with h1 | h1
        · exact absurd h1.symm hx
        · exact h1
      rw [List.filter_cons]
      have hxid : ¬ x.id = img.id := by
        intro hc
        exact hnd.1 (by rw [hc]; exact List.mem_map_of_mem _ hmem2)
      rw [decide_eq_true hxid]
      simp only [if_true]
      rw [List.erase_cons_tail (by simpa using hx)]
      rw [ih img hmem2 hnd.2]

/-- C10 amended: when no two entries of the history share an id (which
subsumes the claim's assumption that the restored entry is the only one with
its id) and the entry is in the history, restoring it prepends it as the new
head after erasing exactly its prior occurrence, leaves the relative order of
all other entries unchanged (the tail is the erase of the original list), is
a permutation of the original history (same entries, never copied), and the
result has pairwise-distinct id values. -/
theorem restoreImage_spec (h : List GeneratedImage) (img : GeneratedImage)
    (hmem : img ∈ h) (hnd : (h.map (fun i => i.id)).Nodup) :
    restoreImage h img = img :: h.erase img ∧
    (restoreImage h img).Perm h ∧
    ((restoreImage h img).map (fun i => i.id)).Nodup ∧
    (restoreImage h img).head? = some img := by
  have hfe := filter_ne_id_eq_erase h img hmem hnd
  refine ⟨?_, ?_, ?_, rfl⟩
  · unfold restoreImage
    rw [hfe]
  · unfold restoreImage
    rw [hfe]
    exact (List.perm_cons_erase hmem).symm
  · unfold restoreImage
    rw [List.map_cons, List.nodup_cons]
    constructor
    · intro hcontra
      obtain ⟨y, hy, hyid⟩ := List.mem_map.mp hcontra
      rw [List.mem_filter] at hy
      exact (of_decide_eq_true hy.2) hyid
    · exact List.Nodup.sublist (List.Sublist.map _ (List.filter_sublist h)) hnd

theorem restoreImage_spec_witness :
    restoreImage [cTenA, cTenB] cTenB = cTenB :: [cTenA, cTenB].erase cTenB ∧
    (restoreImage [cTenA, cTenB] cTenB).Perm [cTenA, cTenB] ∧
    ((restoreImage [cTenA, cTenB] cTenB).map (fun i => i.id)).Nodup ∧
    (restoreImage [cTenA, cTenB] cTenB).head? = some cTenB :=
  restoreImage_spec [cTenA, cTenB] cTenB (by decide) (by decide)
